import Mathlib

/-!
Verification development for `pym/bob/bundle.py` (Bob build tool, bundling
subsystem).  The Python source is shallowly embedded: paths are lists of
character code points, the filesystem and the worker-pool environment are
explicit parameters, and each method of `Bundler` / `Unbundler` becomes a
pure Lean function returning its result together with its side effects
(directories created, files written, final signal-handler state).
-/

namespace Bob

/-- Paths are modelled as lists of character code points, exactly the code
units Python compares when it sorts path strings.  `47` is `'/'`. -/
abbrev Path := List Nat

/-- The POSIX path separator code point, `'/'`. -/
def sep : Nat := 47

/-- Convert a Lean string to a `Path` (its list of code points). -/
def strPath (s : String) : Path := s.data.map Char.toNat

/-- Render a `Path` back to a string (used for error messages built with
f-strings in the source). -/
def pathToString (p : Path) : String := String.mk (p.map Char.ofNat)

/-- Embedding of `os.path.join(a, b)` (posixpath): an absolute second
component resets the path; otherwise a separator is inserted unless `a`
is empty or already ends in one. -/
def pJoin (a b : Path) : Path :=
  if b.head? = some sep then b
  else if a = [] ∨ a.getLast? = some sep then a ++ b
  else a ++ [sep] ++ b

/-- Embedding of `os.path.relpath(f, ws)` in the only situation the encoder
uses it: `f = pJoin ws p` for a workspace `ws` without trailing separator and
a relative `p`, where it strips `ws` plus the separator. -/
def relpath (f ws : Path) : Path := f.drop (ws.length + 1)

/-- Embedding of `os.path.dirname` (posixpath): everything before the last
separator, with trailing separators stripped unless the result is all
separators. -/
def dirname (p : Path) : Path :=
  let head := ((p.reverse.dropWhile (fun c => c ≠ sep))).reverse
  if head ≠ [] ∧ head.any (fun c => c ≠ sep) then
    (head.reverse.dropWhile (fun c => c = sep)).reverse
  else head

/-- Python's lexicographic comparison of strings / code-point lists, as a
boolean `≤`.  This is the order `list.sort()` and `sorted()` use on paths. -/
def lexLe : Path → Path → Bool
  | [], _ => true
  | _ :: _, [] => false
  | a :: as, b :: bs => a < b || (a = b && lexLe as bs)

/-- Python's lexicographic comparison on strings, via code points. -/
def strLe (a b : String) : Bool := lexLe (strPath a) (strPath b)

theorem lexLe_refl (a : Path) : lexLe a a = true := by
  induction a with
  | nil => rfl
  | cons x xs ih => simp [lexLe, ih]

theorem lexLe_total (a b : Path) : (lexLe a b || lexLe b a) = true := by
  induction a generalizing b with
  | nil => simp [lexLe]
  | cons x xs ih =>
    cases b with
    | nil => simp [lexLe]
    | cons y ys =>
      simp only [lexLe, Bool.or_eq_true, decide_eq_true_eq, Bool.and_eq_true]
      rcases Nat.lt_trichotomy x y with h | h | h
      · exact Or.inl (Or.inl (by simpa using h))
      · subst h
        rcases Bool.or_eq_true .. ▸ ih ys with h1 | h1
        · exact Or.inl (Or.inr ⟨by simp, h1⟩)
        · exact Or.inr (Or.inr ⟨by simp, h1⟩)
      · exact Or.inr (Or.inl (by simpa using h))

theorem lexLe_trans (a b c : Path) (h1 : lexLe a b = true) (h2 : lexLe b c = true) :
    lexLe a c = true := by
  induction a generalizing b c with
  | nil => simp [lexLe]
  | cons x xs ih =>
    cases b with
    | nil => simp [lexLe] at h1
    | cons y ys =>
      cases c with
      | nil => simp [lexLe] at h2
      | cons z zs =>
        simp only [lexLe, Bool.or_eq_true, decide_eq_true_eq, Bool.and_eq_true] at h1 h2 ⊢
        rcases h1 with h1 | ⟨hxy, h1⟩
        · rcases h2 with h2 | ⟨hyz, h2⟩
          · exact Or.inl (lt_trans h1 h2)
          · exact Or.inl (hyz ▸ h1)
        · rcases h2 with h2 | ⟨hyz, h2⟩
          · exact Or.inl (hxy ▸ h2)
          · exact Or.inr ⟨hxy.trans hyz, ih ys zs h1 h2⟩

theorem lexLe_antisymm (a b : Path) (h1 : lexLe a b = true) (h2 : lexLe b a = true) :
    a = b := by
  induction a generalizing b with
  | nil =>
    cases b with
    | nil => rfl
    | cons y ys => simp [lexLe] at h2
  | cons x xs ih =>
    cases b with
    | nil => simp [lexLe] at h1
    | cons y ys =>
      simp only [lexLe, Bool.or_eq_true, decide_eq_true_eq, Bool.and_eq_true] at h1 h2
      rcases h1 with h1 | ⟨hxy, h1⟩
      · rcases h2 with h2 | ⟨hyx, h2⟩
        · exact absurd (lt_trans h1 h2) (lt_irrefl x)
        · omega
      · rcases h2 with h2 | ⟨hyx, h2⟩
        · omega
        · exact by rw [hxy, ih ys h1 h2]

/-- Appending a common prefix on the left does not change lexicographic
comparison; this is why sorting full paths under a common workspace prefix
orders them exactly like their relative paths. -/
theorem lexLe_append_left (p a b : Path) :
    lexLe (p ++ a) (p ++ b) = lexLe a b := by
  induction p with
  | nil => rfl
  | cons x xs ih => simp [lexLe, ih]

/-- Lowercase hex digit for a value below 16 (`'0'..'9'`, `'a'..'f'`),
as `bytes.hex()` produces. -/
def hexChar (n : Nat) : Char :=
  if n < 10 then Char.ofNat (48 + n) else Char.ofNat (87 + n)

/-- Embedding of Python `bytes.hex()`: each byte becomes two lowercase hex
digits.  Variant identifiers are fixed-length byte strings rendered this
way everywhere (`variantId.hex()`). -/
def bytesHex (bs : List Nat) : String :=
  String.mk (bs.flatMap (fun b => [hexChar (b / 16 % 16), hexChar (b % 16)]))

/-! ### `fnmatch` (shell-glob matching)

`fnmatch.fnmatch(name, pat)` normalizes case (the identity on POSIX) and
matches `name` against `pat` where `*` matches any sequence, `?` any single
character, and `[...]` a character set with optional `!` negation, a literal
leading `]`, and `a-b` ranges; an unterminated `[` is a literal. -/

/-- Glob pattern tokens after translation. -/
inductive GlobTok where
  | star : GlobTok
  | any : GlobTok
  | lit : Char → GlobTok
  | set : Bool → List Char → GlobTok
deriving DecidableEq

/-- Scan forward to the closing `]` of a bracket expression, returning the
content before it and the remainder after it; `none` when unterminated. -/
def scanClose : List Char → Option (List Char × List Char)
  | [] => none
  | c :: r =>
    if c = ']' then some ([], r)
    else (scanClose r).map (fun p => (c :: p.1, p.2))

theorem scanClose_length {l : List Char} {a rest} (h : scanClose l = some (a, rest)) :
    rest.length < l.length := by
  induction l generalizing a rest with
  | nil => simp [scanClose] at h
  | cons c r ih =>
    by_cases hc : c = ']'
    · simp [scanClose, hc] at h
      simp [← h.2]
    · rcases hsr : scanClose r with _ | ⟨a1, r1⟩ <;> simp [scanClose, hc, hsr] at h
      have := ih hsr
      simp [← h.2]
      omega

/-- The body of a bracket expression after the optional `!`: the set content
up to a closing `]`, where a `]` in first position is part of the set;
`none` when unterminated. -/
def bracketBody (l : List Char) : Option (List Char × List Char) :=
  match l with
  | [] => none
  | c :: r =>
    if c = ']' then (scanClose r).map (fun p => (']' :: p.1, p.2))
    else scanClose (c :: r)

theorem bracketBody_length {l : List Char} {content rest}
    (h : bracketBody l = some (content, rest)) : rest.length < l.length := by
  rcases l with _ | ⟨c, r⟩
  · simp [bracketBody] at h
  · by_cases hc : c = ']'
    · rcases hsr : scanClose r with _ | ⟨a1, r1⟩ <;> simp [bracketBody, hc, hsr] at h
      have := scanClose_length hsr
      simp [← h.2]
      omega
    · simp only [bracketBody, if_neg hc] at h
      exact scanClose_length h

/-- Parse a bracket expression (everything after `[`): optional `!`
negation, then the body up to the closing `]`. -/
def splitBracket (l : List Char) : Option (Bool × List Char × List Char) :=
  match l with
  | [] => none
  | c :: r =>
    if c = '!' then (bracketBody r).map (fun p => (true, p.1, p.2))
    else (bracketBody (c :: r)).map (fun p => (false, p.1, p.2))

theorem splitBracket_length {l : List Char} {neg content rest}
    (h : splitBracket l = some (neg, content, rest)) : rest.length < l.length := by
  rcases l with _ | ⟨c, r⟩
  · simp [splitBracket] at h
  · by_cases hc : c = '!'
    · rcases hb : bracketBody r with _ | ⟨a1, r1⟩ <;> simp [splitBracket, hc, hb] at h
      have := bracketBody_length hb
      simp [← h.2.2]
      omega
    · rcases hb : bracketBody (c :: r) with _ | ⟨a1, r1⟩ <;>
        simp [splitBracket, hc, hb] at h
      have := bracketBody_length hb
      rw [← h.2.2]
      omega

/-- Translate a glob pattern into tokens, following `fnmatch.translate`. -/
def globToks : List Char → List GlobTok
  | [] => []
  | c :: p =>
    if c = '*' then .star :: globToks p
    else if c = '?' then .any :: globToks p
    else if c = '[' then
      match hs : splitBracket p with
      | some (neg, content, rest) =>
        have : rest.length < p.length := splitBracket_length hs
        .set neg content :: globToks rest
      | none => .lit '[' :: globToks p
    else .lit c :: globToks p
termination_by l => l.length
decreasing_by all_goals (simp only [List.length_cons]; omega)

/-- Membership of a character in a bracket-set body, with `a-b` ranges
(an inverted range matches nothing, as in `fnmatch.translate`). -/
def inSet (c : Char) : List Char → Bool
  | a :: '-' :: b :: rest =>
    (a ≤ c && c ≤ b) || inSet c rest
  | a :: rest => (c = a) || inSet c rest
  | [] => false

/-- Match a token list against the characters of a name. -/
def tokMatch : List GlobTok → List Char → Bool
  | [], [] => true
  | [], _ :: _ => false
  | .star :: ts, [] => tokMatch ts []
  | .star :: ts, c :: s => tokMatch ts (c :: s) || tokMatch (.star :: ts) s
  | .any :: ts, _ :: s => tokMatch ts s
  | .any :: _, [] => false
  | .lit a :: ts, c :: s => (a = c) && tokMatch ts s
  | .lit _ :: _, [] => false
  | .set neg content :: ts, c :: s => (inSet c content != neg) && tokMatch ts s
  | .set _ _ :: _, [] => false
termination_by ts s => (ts.length, s.length)

/-- Embedding of `fnmatch.fnmatch(name, pat)` (case normalization is the
identity on POSIX). -/
def fnmatch (name pat : String) : Bool := tokMatch (globToks pat.data) name.data

/-! ### Filesystem and tar/gzip archive model

`Bundler._bundle` walks a workspace with `os.walk`, sorts the full path
list, and writes each file into a tar stream inside a gzip container with
`mtime=0`.  The workspace is modelled as the list of relative paths of its
regular files in `os.walk` enumeration order, together with the file
contents and the `stat` metadata `tarfile.gettarinfo` copies into a
`TarInfo`. -/

/-- Metadata `tarfile` reads from `stat` for a regular file: permission
bits, modification time, owner/group ids and names. -/
structure FileMeta where
  mode : Nat
  mtime : Nat
  uid : Nat
  gid : Nat
  uname : String
  gname : String
deriving DecidableEq

/-- A workspace directory tree: the relative paths of all regular files in
`os.walk` enumeration order (`enum`), with contents and metadata keyed by
relative path.  `bundle.add` reads the file at the joined full path, which
determines the same content as the relative path does. -/
structure FS where
  enum : List Path
  content : Path → List Nat
  meta : Path → FileMeta

/-- One member of the tar stream: the fields of a `TarInfo` for a regular
file plus its content bytes.  `mode` is copied from `stat` and is NOT
touched by the `reset` filter in the source. -/
structure TarEntry where
  path : Path
  content : List Nat
  mode : Nat
  mtime : Nat
  uid : Nat
  gid : Nat
  uname : String
  gname : String
deriving DecidableEq

/-- The compressed artifact: a deterministic function of the tar member
sequence and the gzip header's `mtime` field, so equality of `Archive`
values models byte-identity of the emitted `.tgz` files. -/
structure Archive where
  entries : List TarEntry
  gzipMtime : Nat
deriving DecidableEq

/-- Embedding of `tarfile.gettarinfo` for a regular file at relative path
`p` of filesystem `fs`, named with arcname `arc`. -/
def mkTarinfo (arc : Path) (fs : FS) (p : Path) : TarEntry :=
  { path := arc
    content := fs.content p
    mode := (fs.meta p).mode
    mtime := (fs.meta p).mtime
    uid := (fs.meta p).uid
    gid := (fs.meta p).gid
    uname := (fs.meta p).uname
    gname := (fs.meta p).gname }

/-- Embedding of the `reset` filter in `Bundler._bundle`: forces uid/gid
to 0, uname/gname to `"root"`, mtime to 0 — and nothing else. -/
def reset (t : TarEntry) : TarEntry :=
  { t with uid := 0, gid := 0, uname := "root", gname := "root", mtime := 0 }

/-- Embedding of the encoding loop of `Bundler._bundle`: enumerate all
files (`os.walk` joins each name under its root, yielding `pJoin ws p` for
the workspace-relative `p`), sort the full path list with Python's
lexicographic `list.sort`, then add each file under its
`os.path.relpath(f, workspace)` arcname through the `reset` filter, inside
a gzip container with `mtime=0`. -/
def encodeArchive (ws : Path) (fs : FS) : Archive :=
  { entries := ((fs.enum.map (fun p => pJoin ws p)).mergeSort lexLe).map
      (fun f => reset (mkTarinfo (relpath f ws) fs (relpath f ws)))
    gzipMtime := 0 }

/-- Models `hashFile(bundleFile, hashlib.sha256).hex()`: a deterministic
function of the bytes of the completed compressed archive.  The claims use
only that equal archives hash equal, so the hash combinator itself is a
simple rolling fold standing in for SHA-256. -/
def sha256Hex (a : Archive) : String :=
  let foldBytes := fun (acc : Nat) (bs : List Nat) => bs.foldl (fun h b => h * 257 + b + 1) acc
  let h1 := a.entries.foldl
    (fun h e => foldBytes (foldBytes (h * 31 + e.mode + e.mtime + e.uid + e.gid) e.path) e.content)
    a.gzipMtime
  toString h1

/-! ### Signal handlers, exceptions, and `Bundler._bundle` -/

/-- The possible SIGINT dispositions of the process: `SIG_DFL`, `SIG_IGN`,
`signal.default_int_handler`, or an arbitrary installed Python handler. -/
inductive Handler where
  | sigDfl : Handler
  | sigIgn : Handler
  | defaultIntHandler : Handler
  | custom : Nat → Handler
deriving DecidableEq

/-- Exceptions that can cross the boundaries modelled here.  `buildError`
is Bob's `BuildError(msg)`; the others are the raw library exceptions
(`KeyboardInterrupt`, `concurrent.futures.CancelledError`,
`concurrent.futures.process.BrokenProcessPool`). -/
inductive Exc where
  | buildError : String → Exc
  | keyboardInterrupt : Exc
  | cancelledError : Exc
  | brokenProcessPool : Exc
deriving DecidableEq

/-- Environment events deciding how the encoding loop inside
`Bundler._bundle` terminates: success, a `tarfile.TarError` or `OSError`
with message `s`, or a SIGINT delivered mid-encode (which, under the
installed `default_int_handler`, raises `KeyboardInterrupt`). -/
inductive EncodeEv where
  | ok : EncodeEv
  | tarErr : String → EncodeEv
  | osErr : String → EncodeEv
  | interrupt : EncodeEv
deriving DecidableEq

/-- Result value of a successful `Bundler._bundle`: the tuple
`("ok", EXECUTED, digest)`.  `EXECUTED` is an opaque marker from `bob.tty`. -/
structure EncodeRes where
  msg : String
  executedKind : Bool
  digest : String
deriving DecidableEq

/-- Embedding of `Bundler._bundle(workspace, bundleFile)`.  Takes the
SIGINT handler in effect on entry and the environment event, returns the
outcome together with the handler in effect after the method has returned
or raised.  `signal.signal(SIGINT, default_int_handler)` runs first; the
`try`/`finally` guarantees `signal.signal(SIGINT, SIG_DFL)` runs on every
exit path, so the final handler is `SIG_DFL` by construction — the prior
handler is never consulted. -/
def bundleEncResult (ev : EncodeEv) (ws : Path) (fs : FS) : Except Exc EncodeRes :=
  match ev with
  | .ok => .ok { msg := "ok", executedKind := true,
                 digest := sha256Hex (encodeArchive ws fs) }
  | .tarErr s => .error (.buildError ("Cannot bundle workspace: " ++ s))
  | .osErr s => .error (.buildError ("Cannot bundle workspace: " ++ s))
  | .interrupt => .error .keyboardInterrupt

def bundleEnc (priorHandler : Handler) (ev : EncodeEv) (ws : Path) (fs : FS) :
    Except Exc EncodeRes × Handler :=
  let _prior := priorHandler
  let _duringEncode : Handler := Handler.defaultIntHandler
  (bundleEncResult ev ws fs, Handler.sigDfl)

/-! ### YAML values and the manifest -/

/-- Parsed YAML values, as far as the manifest codec distinguishes them:
strings, integers, sequences, and mappings (association lists of
key/value pairs; a parsed YAML mapping has distinct keys). -/
inductive Yaml where
  | str : String → Yaml
  | num : Nat → Yaml
  | seq : List Yaml → Yaml
  | map : List (Yaml × Yaml) → Yaml

/-- String scalars. -/
def isStrYaml : Yaml → Bool
  | .str _ => true
  | _ => false

/-- Embedding of `Schema({"name": str, "digestSHA256": str})` from the
`schema` library: the value must be a mapping whose every key is the
literal `"name"` or `"digestSHA256"` with a string value, and both
required keys must be present. -/
def validEntryVal : Yaml → Bool
  | .map kvs =>
    kvs.all (fun kv =>
      match kv.1 with
      | .str k => (k = "name" || k = "digestSHA256") && isStrYaml kv.2
      | _ => false)
    && kvs.any (fun kv => match kv.1 with | .str k => k = "name" | _ => false)
    && kvs.any (fun kv => match kv.1 with | .str k => k = "digestSHA256" | _ => false)
  | _ => false

/-- Embedding of the `{str : Schema({...})}` layer of `BUNDLE_SCHEMA`: a
mapping whose every key is a string and every value satisfies the inner
schema.  The class key `str` is a pattern for the data keys, but it is not
`Optional`: the library puts it into the required-key set and raises
`SchemaMissingKeyError` unless at least one data key matched it.  So an
empty mapping is rejected, while a mapping with several string keys is
accepted (each key matches the pattern and coverage is satisfied). -/
def validItem : Yaml → Bool
  | .map kvs =>
    kvs.all (fun kv => isStrYaml kv.1 && validEntryVal kv.2)
    && kvs.any (fun kv => isStrYaml kv.1)
  | _ => false

/-- Embedding of `Unbundler.BUNDLE_SCHEMA`, i.e.
`Schema([{str: Schema({"name": str, "digestSHA256": str})}])`: a sequence
each of whose elements satisfies the mapping layer. -/
def bundleSchemaValid : Yaml → Bool
  | .seq xs => xs.all validItem
  | _ => false

/-- Modelled from the spec's words (for comparison with
`bundleSchemaValid`): a sequence of SINGLE-key mappings in which every
value is a mapping with exactly the fields `name` (string) and
`digestSHA256` (string). -/
def specSingleKeyManifestValid : Yaml → Bool
  | .seq xs =>
    xs.all (fun it =>
      match it with
      | .map [kv] => isStrYaml kv.1 && validEntryVal kv.2
      | _ => false)
  | _ => false

/-! ### The `Bundler` orchestrator -/

/-- A recorded `BundledArtifact`: recipe name, content digest, and the
per-package archive path inside the staging area (the tuple
`(package, digest, bundleFile)` stored in `self.__bundled`). -/
abbrev Artifact := String × String × Path

/-- Insertion into a Python `dict` viewed as an insertion-ordered
association list: an existing key keeps its position and gets the new
value; a fresh key is appended. -/
def dictInsert (k : String) (v : Artifact) : List (String × Artifact) → List (String × Artifact)
  | [] => [(k, v)]
  | (k2, v2) :: rest =>
    if k2 = k then (k2, v) :: rest else (k2, v2) :: dictInsert k v rest

/-- The state of one bundling run (`Bundler.__init__`'s attributes). -/
structure Bundler where
  name : String
  bundleFile : Path
  excludes : List String
  tempDirName : Path
  tempDirPath : Path
  bundled : List (String × Artifact)

/-- Outcome of `Bundler.__init__`: the constructed object or the raised
error, together with every directory that the constructor created on disk,
in creation order. -/
structure InitOutcome where
  result : Except Exc Bundler
  createdDirs : List Path

/-- Embedding of `Bundler.__init__(name, excludes)`.  `cwd` is
`os.getcwd()`, `tempName` the fresh directory path that
`tempfile.TemporaryDirectory()` creates (this creation happens BEFORE the
existence check), and `pathExists` the state of the filesystem at the
`os.path.exists` call. -/
def Bundler.init (cwd : Path) (name : String) (excludes : List String)
    (tempName : Path) (pathExists : Path → Bool) : InitOutcome :=
  let bundleFile := pJoin cwd (strPath name) ++ strPath ".tar"
  let tempDirPath := pJoin tempName (strPath name)
  if pathExists bundleFile then
    { result := .error (.buildError ("Bundle " ++ pathToString bundleFile ++ " already exists!"))
      createdDirs := [tempName] }
  else
    { result := .ok { name := name, bundleFile := bundleFile, excludes := excludes,
                      tempDirName := tempName, tempDirPath := tempDirPath, bundled := [] }
      createdDirs := [tempName, tempDirPath] }

/-- The step abstraction consumed by `bundle`: package name (for exclude
matching), recipe name, checkout variant identifier (raw bytes), and the
workspace to archive. -/
structure Step where
  pkgName : String
  recipeName : String
  variantId : List Nat
  workspacePath : Path
  workspaceFS : FS

/-- Environment events deciding how one offloaded encode submission ends:
normal completion of `_bundle` (with its internal event), external
cancellation of the future, or a broken worker pool. -/
inductive BundleEv where
  | enc : EncodeEv → BundleEv
  | cancelled : BundleEv
  | brokenPool : BundleEv

/-- Outcome of one `bundle(step, executor)` call: the returned value or
raised exception, the updated run state, the directories created by
`os.makedirs`, and the destination files that were written to completion. -/
structure BundleOutcome where
  result : Except Exc Unit
  bundler : Bundler
  createdDirs : List Path
  filesWritten : List Path

/-- Embedding of `Bundler.bundle(step, executor)`.  An exclude match
returns before anything else happens.  Otherwise the per-package staging
directory is created, the encode is offloaded, and on success the artifact
is recorded under the variant identifier's hex form; `CancelledError` and
`BrokenProcessPool` from the pool are converted to
`BuildError("Upload of bundling interrupted.")`, while errors raised by
`_bundle` itself propagate unchanged. -/
def Bundler.bundle (b : Bundler) (step : Step) (ev : BundleEv) : BundleOutcome :=
  if b.excludes.any (fun e => fnmatch step.pkgName e) then
    { result := .ok (), bundler := b, createdDirs := [], filesWritten := [] }
  else
    let vid := bytesHex step.variantId
    let dest := pJoin (pJoin b.tempDirPath (strPath step.recipeName)) (strPath vid)
    let bundleFile := pJoin dest (strPath "bundle.tgz")
    match ev with
    | .cancelled =>
      { result := .error (.buildError "Upload of bundling interrupted.")
        bundler := b, createdDirs := [dest], filesWritten := [] }
    | .brokenPool =>
      { result := .error (.buildError "Upload of bundling interrupted.")
        bundler := b, createdDirs := [dest], filesWritten := [] }
    | .enc encEv =>
      match bundleEncResult encEv step.workspacePath step.workspaceFS with
      | .ok r =>
        { result := .ok ()
          bundler := { b with bundled := dictInsert vid (step.recipeName, r.digest, bundleFile) b.bundled }
          createdDirs := [dest], filesWritten := [bundleFile] }
      | .error e =>
        { result := .error e, bundler := b, createdDirs := [dest], filesWritten := [] }

/-- What finalize packs into the aggregate tar for one arcname: a file
from the staging area, or the freshly dumped manifest document. -/
inductive AggSrc where
  | fileRef : Path → AggSrc
  | yamlDoc : Yaml → AggSrc

/-- Outcome of `Bundler.finalize()`: the manifest value dumped to
`<name>.yaml` and the aggregate tar contents (arcname, source) in the
order they are added. -/
structure FinalizeOutcome where
  result : Except Exc Unit
  manifest : Yaml
  archive : List (Path × AggSrc)

/-- Embedding of `Bundler.finalize()`.  Iterates `sorted(bundled.items())`
(Python tuple order: primary key the variant-id hex string), building the
manifest list and adding each per-package archive under its
staging-relative arcname; finally dumps the manifest and adds it as
`<name>/<name>.yaml`.  `tarfile.open(bundleFile, "w")` truncates any
existing file and performs no existence check. -/
def Bundler.finalize (b : Bundler) : FinalizeOutcome :=
  let sortedItems := b.bundled.mergeSort (fun x y => strLe x.1 y.1)
  let manifest := Yaml.seq (sortedItems.map (fun it =>
    Yaml.map [(Yaml.str it.1,
               Yaml.map [(Yaml.str "digestSHA256", Yaml.str it.2.2.1),
                         (Yaml.str "name", Yaml.str it.2.1)])]))
  let tarAdds := sortedItems.map (fun it =>
    (relpath it.2.2.2 b.tempDirName, AggSrc.fileRef it.2.2.2))
  let bundleConfig := b.name ++ ".yaml"
  { result := .ok ()
    manifest := manifest
    archive := tarAdds ++ [(pJoin (strPath b.name) (strPath bundleConfig),
                            AggSrc.yamlDoc manifest)] }

/-- Disk contents at aggregate-archive granularity: which archive value, if
any, is stored at each path. -/
abbrev Disk := Path → Option (List (Path × AggSrc))

/-- The filesystem effect of `Bundler.finalize()`: `tarfile.open(path, "w")`
creates or truncates the aggregate bundle path unconditionally and the
fresh archive replaces whatever was there. -/
def finalizeWrite (b : Bundler) (disk : Disk) : (Except Exc Unit) × Disk :=
  ((Bundler.finalize b).result,
   fun p => if p = b.bundleFile then some (Bundler.finalize b).archive else disk p)

/-! ### The `Unbundler` resolver -/

/-- A schema-validated manifest entry value: the `name` and `digestSHA256`
fields. -/
structure BData where
  name : String
  digestSHA256 : String
deriving DecidableEq

/-- Python `dict.get` on a parsed single mapping (association list). -/
def lookupKey (k : String) : List (String × BData) → Option BData
  | [] => none
  | (k2, v) :: rest => if k2 = k then some v else lookupKey k rest

/-- The inner loop of `getFromBundle`: scan one bundle's manifest entries
in sequence order; on the first entry containing the key, build the
resolved triple. -/
def findInItems (bundleFile : Path) (hex : String) :
    List (List (String × BData)) → Option (Path × Path × String)
  | [] => none
  | b :: rest =>
    match lookupKey hex b with
    | some data =>
      some (bundleFile,
            pJoin (pJoin (pJoin (dirname bundleFile) (strPath data.name)) (strPath hex))
              (strPath "bundle.tgz"),
            data.digestSHA256)
    | none => findInItems bundleFile hex rest

/-- Embedding of `Unbundler.getFromBundle(variantId)`: scan the supplied
bundles in order, within each bundle the manifest entries in order, and
return the triple for the first entry whose mapping contains
`variantId.hex()`; `None` when nothing matches. -/
def getFromBundle (bundles : List (Path × List (List (String × BData))))
    (variantId : List Nat) : Option (Path × Path × String) :=
  match bundles with
  | [] => none
  | (bf, items) :: rest =>
    match findInItems bf (bytesHex variantId) items with
    | some r => some r
    | none => getFromBundle rest variantId

/-! ### Helper lemmas about paths, sorting and the encoder -/

theorem pJoin_eq_append {ws p : Path} (hws1 : ws ≠ []) (hws2 : ws.getLast? ≠ some sep)
    (hp : p.head? ≠ some sep) : pJoin ws p = (ws ++ [sep]) ++ p := by
  unfold pJoin
  rw [if_neg hp, if_neg (by push_neg; exact ⟨hws1, hws2⟩)]

theorem relpath_pJoin {ws p : Path} (hws1 : ws ≠ []) (hws2 : ws.getLast? ≠ some sep)
    (hp : p.head? ≠ some sep) : relpath (pJoin ws p) ws = p := by
  rw [pJoin_eq_append hws1 hws2 hp]
  unfold relpath
  have : ws.length + 1 = (ws ++ [sep]).length := by simp
  rw [this, List.drop_left]

theorem sorted_perm_eq {l₁ l₂ : List Path} (hp : l₁.Perm l₂)
    (h₁ : l₁.Pairwise (fun a b => lexLe a b = true))
    (h₂ : l₂.Pairwise (fun a b => lexLe a b = true)) : l₁ = l₂ := by
  haveI : IsAntisymm Path (fun a b => lexLe a b = true) :=
    ⟨fun a b hab hba => lexLe_antisymm a b hab hba⟩
  exact List.eq_of_perm_of_sorted hp h₁ h₂

theorem pairwise_mergeSort_lexLe (l : List Path) :
    (l.mergeSort lexLe).Pairwise (fun a b => lexLe a b = true) :=
  List.sorted_mergeSort (fun a b c => lexLe_trans a b c) lexLe_total l

/-- Sorting the full paths under a common workspace prefix produces the
same order as sorting the relative paths. -/
theorem mergeSort_map_pJoin {ws : Path} (hws1 : ws ≠ []) (hws2 : ws.getLast? ≠ some sep)
    {l : List Path} (hl : ∀ p ∈ l, p.head? ≠ some sep) :
    (l.map (fun p => pJoin ws p)).mergeSort lexLe =
      (l.mergeSort lexLe).map (fun p => pJoin ws p) := by
  apply sorted_perm_eq
  · exact ((List.mergeSort_perm _ lexLe).trans ((List.mergeSort_perm l lexLe).map _).symm)
  · exact pairwise_mergeSort_lexLe _
  · rw [List.pairwise_map]
    have hsort := pairwise_mergeSort_lexLe l
    refine hsort.imp_of_mem ?_
    intro a b ha hb hab
    have hmem : ∀ x ∈ l.mergeSort lexLe, x ∈ l :=
      fun x hx => (List.mergeSort_perm l lexLe).mem_iff.mp hx
    rw [pJoin_eq_append hws1 hws2 (hl a (hmem a ha)),
        pJoin_eq_append hws1 hws2 (hl b (hmem b hb))]
    rw [lexLe_append_left]
    exact hab

/-- Canonical form of the encoder output: entries are the lexicographically
sorted relative paths, each carrying its content, its `stat` mode, and the
reset (zeroed) ownership and timestamp fields. -/
theorem encodeArchive_canonical {ws : Path} (hws1 : ws ≠ []) (hws2 : ws.getLast? ≠ some sep)
    {fs : FS} (hrel : ∀ p ∈ fs.enum, p.head? ≠ some sep) :
    encodeArchive ws fs =
      { entries := (fs.enum.mergeSort lexLe).map (fun p =>
          { path := p, content := fs.content p, mode := (fs.meta p).mode,
            mtime := 0, uid := 0, gid := 0, uname := "root", gname := "root" })
        gzipMtime := 0 } := by
  unfold encodeArchive
  rw [mergeSort_map_pJoin hws1 hws2 hrel]
  congr 1
  rw [List.map_map]
  apply List.map_congr_left
  intro p hp
  have hpl : p ∈ fs.enum := (List.mergeSort_perm fs.enum lexLe).mem_iff.mp hp
  simp only [Function.comp_apply]
  rw [relpath_pJoin hws1 hws2 (hrel p hpl)]
  rfl

/-! ### Claim theorems -/

/-- C1 (counterexample): with the aggregate bundle path already existing,
`Bundler.__init__` does raise a typed error, but state HAS been created:
`tempfile.TemporaryDirectory()` runs before the existence check, so the
temporary directory exists on disk at the time of the raise, refuting "no
state (no temporary/staging directory) has been created". -/
theorem C1_guard_counterexample :
    (∃ msg, (Bundler.init (strPath "/work") "rel1" [] (strPath "/tmp/x")
      (fun p => decide (p = pJoin (strPath "/work") (strPath "rel1") ++ strPath ".tar"))).result
        = .error (.buildError msg)) ∧
    (Bundler.init (strPath "/work") "rel1" [] (strPath "/tmp/x")
      (fun p => decide (p = pJoin (strPath "/work") (strPath "rel1") ++ strPath ".tar"))).createdDirs
        ≠ [] := by
  constructor
  · exact ⟨"Bundle /work/rel1.tar already exists!", rfl⟩
  · intro h
    exact List.cons_ne_nil _ _ h

/-- C1 (amended): for every name whose derived aggregate bundle path exists,
construction raises a `BuildError` before the staging subdirectory
`<tempdir>/<name>` is created and before any file is written; the only
directory created is the temporary directory itself, which
`tempfile.TemporaryDirectory()` makes before the check runs. -/
theorem C1_guard_amended (cwd : Path) (name : String) (excludes : List String)
    (tempName : Path) (pathExists : Path → Bool)
    (h : pathExists (pJoin cwd (strPath name) ++ strPath ".tar") = true) :
    (∃ msg, (Bundler.init cwd name excludes tempName pathExists).result
        = .error (.buildError msg)) ∧
    (Bundler.init cwd name excludes tempName pathExists).createdDirs = [tempName] := by
  unfold Bundler.init
  rw [if_pos h]
  exact ⟨⟨_, rfl⟩, rfl⟩

/-- C1 witness: concrete instantiation of the amended guard theorem. -/
theorem C1_guard_amended_witness :
    ((fun p => decide (p = pJoin (strPath "/work") (strPath "rel1") ++ strPath ".tar"))
        (pJoin (strPath "/work") (strPath "rel1") ++ strPath ".tar") = true) ∧
    (Bundler.init (strPath "/work") "rel1" ["x-*"] (strPath "/tmp/x")
      (fun p => decide (p = pJoin (strPath "/work") (strPath "rel1") ++ strPath ".tar"))).createdDirs
        = [strPath "/tmp/x"] :=
  ⟨by decide,
   (C1_guard_amended (strPath "/work") "rel1" ["x-*"] (strPath "/tmp/x")
      (fun p => decide (p = pJoin (strPath "/work") (strPath "rel1") ++ strPath ".tar"))
      (by decide)).2⟩

/-- C2 (counterexample): `_bundle` does not restore the prior SIGINT
handler: starting from a custom handler, after a successful encode the
handler is `SIG_DFL`, not the prior handler. -/
theorem C2_restore_counterexample :
    (bundleEnc (Handler.custom 0) EncodeEv.ok []
      { enum := [], content := fun _ => [], meta := fun _ => ⟨0, 0, 0, 0, "", ""⟩ }).2
      ≠ Handler.custom 0 := by decide

/-- C2 (amended): on every exit path of `_bundle` — success, archive/IO
error, or interruption — the `finally` block leaves the process SIGINT
handler equal to `SIG_DFL`, for every prior handler state (the prior
handler is never consulted or restored). -/
theorem C2_restore_amended (prior : Handler) (ev : EncodeEv) (ws : Path) (fs : FS) :
    (bundleEnc prior ev ws fs).2 = Handler.sigDfl := rfl

/-- C3 (counterexample): two source trees with the same relative paths and
byte-identical contents but different permission bits produce different
archives: the `reset` filter zeroes uid/gid/uname/gname/mtime but leaves
`TarInfo.mode` as `stat` reported it, so permissions leak into the
archive bytes. -/
theorem C3_determinism_counterexample :
    (FS.mk [[97]] (fun _ => [1]) (fun _ => ⟨420, 5, 7, 8, "u", "g"⟩)).enum
      = (FS.mk [[97]] (fun _ => [1]) (fun _ => ⟨493, 9, 3, 8, "w", "h"⟩)).enum ∧
    (∀ p, (FS.mk [[97]] (fun _ => [1]) (fun _ => ⟨420, 5, 7, 8, "u", "g"⟩)).content p
      = (FS.mk [[97]] (fun _ => [1]) (fun _ => ⟨493, 9, 3, 8, "w", "h"⟩)).content p) ∧
    encodeArchive (strPath "/w") (FS.mk [[97]] (fun _ => [1]) (fun _ => ⟨420, 5, 7, 8, "u", "g"⟩))
      ≠ encodeArchive (strPath "/w") (FS.mk [[97]] (fun _ => [1]) (fun _ => ⟨493, 9, 3, 8, "w", "h"⟩)) := by
  refine ⟨rfl, fun _ => rfl, ?_⟩
  have h1 : ([[97]] : List Path).mergeSort lexLe = [[97]] := by simp [List.mergeSort]
  rw [encodeArchive_canonical (by decide) (by decide) (by decide),
      encodeArchive_canonical (by decide) (by decide) (by decide)]
  rw [h1]
  intro h
  have := congrArg (fun a => a.entries.map (fun e => e.mode)) h
  simp at this

/-- C3 (amended): encoding is deterministic in the file-tree contents AND
permission bits: for any two workspaces containing the same set of relative
paths with byte-identical contents and equal `stat` modes — but arbitrary
differing timestamps, uids/gids and owner/group names, and arbitrary
enumeration order — the encoder produces identical archives and equal
digests. -/
theorem C3_determinism_amended (ws1 ws2 : Path) (fs1 fs2 : FS)
    (h11 : ws1 ≠ []) (h12 : ws1.getLast? ≠ some sep)
    (h21 : ws2 ≠ []) (h22 : ws2.getLast? ≠ some sep)
    (hrel : ∀ p ∈ fs1.enum, p.head? ≠ some sep)
    (hperm : fs1.enum.Perm fs2.enum)
    (hcont : ∀ p ∈ fs1.enum, fs1.content p = fs2.content p)
    (hmode : ∀ p ∈ fs1.enum, (fs1.meta p).mode = (fs2.meta p).mode) :
    encodeArchive ws1 fs1 = encodeArchive ws2 fs2 ∧
    sha256Hex (encodeArchive ws1 fs1) = sha256Hex (encodeArchive ws2 fs2) := by
  have hrel2 : ∀ p ∈ fs2.enum, p.head? ≠ some sep :=
    fun p hp => hrel p (hperm.mem_iff.mpr hp)
  have hms : fs1.enum.mergeSort lexLe = fs2.enum.mergeSort lexLe := by
    apply sorted_perm_eq
    · exact (List.mergeSort_perm _ _).trans (hperm.trans (List.mergeSort_perm _ _).symm)
    · exact pairwise_mergeSort_lexLe _
    · exact pairwise_mergeSort_lexLe _
  have harch : encodeArchive ws1 fs1 = encodeArchive ws2 fs2 := by
    rw [encodeArchive_canonical h11 h12 hrel, encodeArchive_canonical h21 h22 hrel2]
    congr 1
    rw [← hms]
    apply List.map_congr_left
    intro p hp
    have hmem : p ∈ fs1.enum := (List.mergeSort_perm fs1.enum lexLe).mem_iff.mp hp
    rw [hcont p hmem, hmode p hmem]
  exact ⟨harch, congrArg sha256Hex harch⟩

/-- C3 witness: concrete instantiation of the amended determinism theorem,
with distinct workspace roots, reversed enumeration order, and metadata
differing in everything the `reset` filter zeroes. -/
theorem C3_determinism_amended_witness :
    ((FS.mk [[97], [98]] (fun p => p) (fun _ => ⟨420, 1, 2, 3, "a", "b"⟩)).enum.Perm
      (FS.mk [[98], [97]] (fun p => p) (fun _ => ⟨420, 99, 5, 6, "x", "y"⟩)).enum) ∧
    encodeArchive (strPath "/a")
        (FS.mk [[97], [98]] (fun p => p) (fun _ => ⟨420, 1, 2, 3, "a", "b"⟩))
      = encodeArchive (strPath "/b")
        (FS.mk [[98], [97]] (fun p => p) (fun _ => ⟨420, 99, 5, 6, "x", "y"⟩)) :=
  ⟨by decide,
   (C3_determinism_amended (strPath "/a") (strPath "/b")
      (FS.mk [[97], [98]] (fun p => p) (fun _ => ⟨420, 1, 2, 3, "a", "b"⟩))
      (FS.mk [[98], [97]] (fun p => p) (fun _ => ⟨420, 99, 5, 6, "x", "y"⟩))
      (by decide) (by decide) (by decide) (by decide)
      (by decide) (by decide) (fun p _ => rfl) (fun p _ => rfl)).1⟩

/-- C4: the archive members are exactly the lexicographically sorted
relative paths of the workspace's regular files, in that order, and the
result is independent of the filesystem enumeration order. -/
theorem C4_sorted_order (ws : Path) (fs : FS) (hws1 : ws ≠ [])
    (hws2 : ws.getLast? ≠ some sep) (hrel : ∀ p ∈ fs.enum, p.head? ≠ some sep) :
    (encodeArchive ws fs).entries.map (fun e => e.path) = fs.enum.mergeSort lexLe ∧
    ∀ fs2 : FS, fs2.enum.Perm fs.enum →
      (encodeArchive ws fs2).entries.map (fun e => e.path)
        = (encodeArchive ws fs).entries.map (fun e => e.path) := by
  have main : ∀ (g : FS), (∀ p ∈ g.enum, p.head? ≠ some sep) →
      (encodeArchive ws g).entries.map (fun e => e.path) = g.enum.mergeSort lexLe := by
    intro g hg
    rw [encodeArchive_canonical hws1 hws2 hg]
    simp [Function.comp_def]
  refine ⟨main fs hrel, ?_⟩
  intro fs2 hperm
  have hrel2 : ∀ p ∈ fs2.enum, p.head? ≠ some sep :=
    fun p hp => hrel p (hperm.mem_iff.mp hp)
  rw [main fs2 hrel2, main fs hrel]
  apply sorted_perm_eq
  · exact (List.mergeSort_perm _ _).trans (hperm.trans (List.mergeSort_perm _ _).symm)
  · exact pairwise_mergeSort_lexLe _
  · exact pairwise_mergeSort_lexLe _

/-- C4 witness: concrete instantiation — files enumerated as `b, a` are
archived as `a, b`. -/
theorem C4_sorted_order_witness :
    ((strPath "/ws" : Path) ≠ []) ∧
    (encodeArchive (strPath "/ws")
        (FS.mk [[98], [97]] (fun p => p) (fun _ => ⟨420, 0, 0, 0, "", ""⟩))).entries.map
          (fun e => e.path) = [[97], [98]] := by
  refine ⟨by decide, ?_⟩
  rw [(C4_sorted_order (strPath "/ws")
        (FS.mk [[98], [97]] (fun p => p) (fun _ => ⟨420, 0, 0, 0, "", ""⟩))
        (by decide) (by decide) (by decide)).1]
  simp [List.mergeSort, lexLe]

/-- C5: a step whose package name matches at least one exclude pattern is a
complete no-op for `bundle`: the call returns without error, the run state
(including the artifact map) is unchanged, and no staging directory or file
is created. -/
theorem C5_exclude_noop (b : Bundler) (step : Step) (ev : BundleEv)
    (h : ∃ e ∈ b.excludes, fnmatch step.pkgName e = true) :
    (Bundler.bundle b step ev).result = .ok () ∧
    (Bundler.bundle b step ev).bundler = b ∧
    (Bundler.bundle b step ev).createdDirs = [] ∧
    (Bundler.bundle b step ev).filesWritten = [] := by
  have hany : b.excludes.any (fun e => fnmatch step.pkgName e) = true := by
    rw [List.any_eq_true]
    obtain ⟨e, he, hm⟩ := h
    exact ⟨e, he, hm⟩
  unfold Bundler.bundle
  rw [if_pos hany]
  exact ⟨rfl, rfl, rfl, rfl⟩

/-- C5 witness: the spec's own scenario — pattern `internal-*`, package
`internal-tools`. -/
theorem C5_exclude_noop_witness :
    fnmatch "internal-tools" "internal-*" = true ∧
    (Bundler.bundle
      (Bundler.mk "rel1" (strPath "/work/rel1.tar") ["internal-*"]
        (strPath "/tmp/x") (strPath "/tmp/x/rel1") [])
      (Step.mk "internal-tools" "tools" [170] (strPath "/w")
        (FS.mk [] (fun _ => []) (fun _ => ⟨0, 0, 0, 0, "", ""⟩)))
      BundleEv.cancelled).bundler
      = Bundler.mk "rel1" (strPath "/work/rel1.tar") ["internal-*"]
          (strPath "/tmp/x") (strPath "/tmp/x/rel1") [] := by
  have hm : fnmatch "internal-tools" "internal-*" = true := by
    simp [fnmatch, globToks, splitBracket, bracketBody, scanClose, tokMatch, inSet]
  exact ⟨hm, (C5_exclude_noop _ _ _ ⟨"internal-*", by simp, hm⟩).2.1⟩

/-- C7: external cancellation and worker-pool breakage are both surfaced by
`bundle` as `BuildError("Upload of bundling interrupted.")`; the raw pool
exceptions are never propagated; and that failure is distinguishable from
every encoding failure, which always reads
`BuildError("Cannot bundle workspace: " + cause)`. -/
theorem C7_interrupted_distinct (b : Bundler) (step : Step)
    (h : b.excludes.any (fun e => fnmatch step.pkgName e) = false) :
    ((Bundler.bundle b step .cancelled).result
        = .error (.buildError "Upload of bundling interrupted.") ∧
     (Bundler.bundle b step .brokenPool).result
        = .error (.buildError "Upload of bundling interrupted.")) ∧
    (∀ ev, (Bundler.bundle b step ev).result ≠ .error .cancelledError ∧
           (Bundler.bundle b step ev).result ≠ .error .brokenProcessPool) ∧
    (∀ s ws fs, bundleEncResult (.tarErr s) ws fs
        ≠ .error (.buildError "Upload of bundling interrupted.") ∧
      bundleEncResult (.osErr s) ws fs
        ≠ .error (.buildError "Upload of bundling interrupted.")) := by
  have hno : ¬ (b.excludes.any (fun e => fnmatch step.pkgName e) = true) := by
    simp [h]
  have hmsg : ∀ s : String,
      ("Cannot bundle workspace: " ++ s) ≠ "Upload of bundling interrupted." := by
    intro s hEq
    have h2 : ("Cannot bundle workspace: " ++ s).data.head? = some 'U' := by
      rw [hEq]; rfl
    rw [String.data_append] at h2
    have h3 : ("Cannot bundle workspace: ").data
        = 'C' :: "annot bundle workspace: ".data := rfl
    rw [h3] at h2
    simp at h2
  refine ⟨⟨?_, ?_⟩, ?_, ?_⟩
  · unfold Bundler.bundle; rw [if_neg hno]
  · unfold Bundler.bundle; rw [if_neg hno]
  · intro ev
    unfold Bundler.bundle
    rw [if_neg hno]
    cases ev with
    | cancelled => exact ⟨by simp, by simp⟩
    | brokenPool => exact ⟨by simp, by simp⟩
    | enc encEv => cases encEv <;> exact ⟨by simp [bundleEncResult], by simp [bundleEncResult]⟩
  · intro s ws fs
    exact ⟨by simp [bundleEncResult, hmsg s], by simp [bundleEncResult, hmsg s]⟩

/-- C7 witness: concrete instantiation with no exclude patterns. -/
theorem C7_interrupted_distinct_witness :
    (((Bundler.mk "rel1" (strPath "/work/rel1.tar") [] (strPath "/tmp/x")
        (strPath "/tmp/x/rel1") []).excludes.any
          (fun e => fnmatch "pkg" e) = false)) ∧
    (Bundler.bundle
      (Bundler.mk "rel1" (strPath "/work/rel1.tar") [] (strPath "/tmp/x")
        (strPath "/tmp/x/rel1") [])
      (Step.mk "pkg" "r" [170] (strPath "/w")
        (FS.mk [] (fun _ => []) (fun _ => ⟨0, 0, 0, 0, "", ""⟩)))
      BundleEv.cancelled).result
      = .error (.buildError "Upload of bundling interrupted.") :=
  ⟨rfl,
   (C7_interrupted_distinct
      (Bundler.mk "rel1" (strPath "/work/rel1.tar") [] (strPath "/tmp/x")
        (strPath "/tmp/x/rel1") [])
      (Step.mk "pkg" "r" [170] (strPath "/w")
        (FS.mk [] (fun _ => []) (fun _ => ⟨0, 0, 0, 0, "", ""⟩)))
      rfl).1.1⟩

/-- C10: `finalize` enforces no never-overwrite guard: after a first
successful `finalize` has written the aggregate bundle path, a second call
succeeds and overwrites that path with a freshly built aggregate archive;
the existence check lives only in the constructor. -/
theorem C10_refinalize_overwrites (b : Bundler) (disk : Disk) :
    ((finalizeWrite b disk).2) b.bundleFile = some (Bundler.finalize b).archive ∧
    (finalizeWrite b ((finalizeWrite b disk).2)).1 = .ok () ∧
    ((finalizeWrite b ((finalizeWrite b disk).2)).2) b.bundleFile
      = some (Bundler.finalize b).archive := by
  refine ⟨?_, rfl, ?_⟩ <;> simp [finalizeWrite]

/-! ### Runs of successful bundle calls (for the finalize/manifest claims) -/

/-- The hex form of a step's variant identifier, as used for staging-path
and manifest keys. -/
def vidHex (s : Step) : String := bytesHex s.variantId

/-- The artifact a successful `bundle(step)` records for `step` in run
state `b`: recipe name, digest of the encoded workspace, per-package
archive path. -/
def stepArtifact (b : Bundler) (s : Step) : Artifact :=
  (s.recipeName,
   sha256Hex (encodeArchive s.workspacePath s.workspaceFS),
   pJoin (pJoin (pJoin b.tempDirPath (strPath s.recipeName)) (strPath (vidHex s)))
     (strPath "bundle.tgz"))

/-- Execute a sequence of `bundle` calls whose encodes all complete
normally, returning the final run state and whether every call returned
without raising. -/
def runOk : Bundler → List Step → Bundler × Bool
  | b, [] => (b, true)
  | b, s :: rest =>
    let o := Bundler.bundle b s (.enc .ok)
    let r := runOk o.bundler rest
    (r.1, (match o.result with | .ok _ => true | .error _ => false) && r.2)

theorem dictInsert_fresh {k : String} {v : Artifact} {m : List (String × Artifact)}
    (h : ∀ kv ∈ m, kv.1 ≠ k) : dictInsert k v m = m ++ [(k, v)] := by
  induction m with
  | nil => rfl
  | cons kv rest ih =>
    unfold dictInsert
    rw [if_neg (h kv (List.mem_cons_self kv rest))]
    rw [ih (fun kv2 h2 => h kv2 (List.mem_cons_of_mem kv h2))]
    rfl

theorem bundle_ok_spec (b : Bundler) (s : Step)
    (h : b.excludes.any (fun e => fnmatch s.pkgName e) = false) :
    (Bundler.bundle b s (.enc .ok)).result = .ok () ∧
    (Bundler.bundle b s (.enc .ok)).bundler
      = { b with bundled := dictInsert (vidHex s) (stepArtifact b s) b.bundled } := by
  have hno : ¬ (b.excludes.any (fun e => fnmatch s.pkgName e) = true) := by simp [h]
  unfold Bundler.bundle
  rw [if_neg hno]
  exact ⟨rfl, rfl⟩

theorem runOk_spec (steps : List Step) (b : Bundler)
    (hexc : ∀ s ∈ steps, b.excludes.any (fun e => fnmatch s.pkgName e) = false)
    (hfresh : ∀ s ∈ steps, ∀ kv ∈ b.bundled, kv.1 ≠ vidHex s)
    (hnodup : (steps.map vidHex).Nodup) :
    (runOk b steps).2 = true ∧
    (runOk b steps).1.bundled
      = b.bundled ++ steps.map (fun s => (vidHex s, stepArtifact b s)) ∧
    (runOk b steps).1.name = b.name ∧
    (runOk b steps).1.tempDirName = b.tempDirName := by
  induction steps generalizing b with
  | nil => simp [runOk]
  | cons s rest ih =>
    have hs := bundle_ok_spec b s (hexc s (List.mem_cons_self s rest))
    have hins : dictInsert (vidHex s) (stepArtifact b s) b.bundled
        = b.bundled ++ [(vidHex s, stepArtifact b s)] :=
      dictInsert_fresh (hfresh s (List.mem_cons_self s rest))
    have hb2eq : (Bundler.bundle b s (.enc .ok)).bundler
        = { b with bundled := b.bundled ++ [(vidHex s, stepArtifact b s)] } := by
      rw [hs.2, hins]
    obtain ⟨hnods, hnodup2⟩ : vidHex s ∉ rest.map vidHex ∧ (rest.map vidHex).Nodup := by
      simpa [List.nodup_cons] using hnodup
    have hexc2 : ∀ s2 ∈ rest,
        ((Bundler.bundle b s (.enc .ok)).bundler).excludes.any
          (fun e => fnmatch s2.pkgName e) = false := by
      intro s2 h2
      rw [hb2eq]
      exact hexc s2 (List.mem_cons_of_mem s h2)
    have hfresh2 : ∀ s2 ∈ rest,
        ∀ kv ∈ ((Bundler.bundle b s (.enc .ok)).bundler).bundled, kv.1 ≠ vidHex s2 := by
      intro s2 h2 kv hkv
      rw [hb2eq] at hkv
      simp only [List.mem_append, List.mem_singleton] at hkv
      rcases hkv with hkv | hkv
      · exact hfresh s2 (List.mem_cons_of_mem s h2) kv hkv
      · rw [hkv]
        intro hcontra
        apply hnods
        have hvv : vidHex s = vidHex s2 := hcontra
        rw [hvv]
        exact List.mem_map_of_mem vidHex h2
    obtain ⟨hok, hbund, hname, htmp⟩ :=
      ih (Bundler.bundle b s (.enc .ok)).bundler hexc2 hfresh2 hnodup2
    have hart : (fun s2 => (vidHex s2,
        stepArtifact { b with bundled := b.bundled ++ [(vidHex s, stepArtifact b s)] } s2))
        = (fun s2 => (vidHex s2, stepArtifact b s2)) := rfl
    refine ⟨?_, ?_, ?_, ?_⟩
    · show ((match (Bundler.bundle b s (.enc .ok)).result with
        | .ok _ => true | .error _ => false)
        && (runOk (Bundler.bundle b s (.enc .ok)).bundler rest).2) = true
      rw [hs.1, hok]
      rfl
    · show (runOk (Bundler.bundle b s (.enc .ok)).bundler rest).1.bundled = _
      rw [hbund, hb2eq, hart]
      simp [List.append_assoc]
    · show (runOk (Bundler.bundle b s (.enc .ok)).bundler rest).1.name = b.name
      rw [hname, hb2eq]
    · show (runOk (Bundler.bundle b s (.enc .ok)).bundler rest).1.tempDirName = b.tempDirName
      rw [htmp, hb2eq]

theorem strLe_trans (a b c : String) (h1 : strLe a b = true) (h2 : strLe b c = true) :
    strLe a c = true := lexLe_trans _ _ _ h1 h2

theorem strLe_total (a b : String) : (strLe a b || strLe b a) = true := lexLe_total _ _

/-- The variant-identifier key of a manifest entry (the single key of the
entry's mapping). -/
def entryKey : Yaml → String
  | .map ((Yaml.str k, _) :: _) => k
  | _ => ""

/-- C6 (counterexample): two `bundle` calls with distinct
(recipe, variant-identifier) pairs that share the same variant identifier
both succeed, but the artifact map keys by variant id alone, so the second
overwrites the first and the finalized manifest has one entry, not two. -/
theorem C6_manifest_counterexample :
    ((Step.mk "p1" "r1" [170] (strPath "/w1")
        (FS.mk [] (fun _ => []) (fun _ => ⟨0, 0, 0, 0, "", ""⟩))).recipeName,
      vidHex (Step.mk "p1" "r1" [170] (strPath "/w1")
        (FS.mk [] (fun _ => []) (fun _ => ⟨0, 0, 0, 0, "", ""⟩))))
      ≠ ((Step.mk "p2" "r2" [170] (strPath "/w2")
        (FS.mk [] (fun _ => []) (fun _ => ⟨0, 0, 0, 0, "", ""⟩))).recipeName,
      vidHex (Step.mk "p2" "r2" [170] (strPath "/w2")
        (FS.mk [] (fun _ => []) (fun _ => ⟨0, 0, 0, 0, "", ""⟩)))) ∧
    (runOk (Bundler.mk "rel1" (strPath "/work/rel1.tar") [] (strPath "/t") (strPath "/t/rel1") [])
      [Step.mk "p1" "r1" [170] (strPath "/w1")
        (FS.mk [] (fun _ => []) (fun _ => ⟨0, 0, 0, 0, "", ""⟩)),
       Step.mk "p2" "r2" [170] (strPath "/w2")
        (FS.mk [] (fun _ => []) (fun _ => ⟨0, 0, 0, 0, "", ""⟩))]).2 = true ∧
    ∃ l, (Bundler.finalize
      (runOk (Bundler.mk "rel1" (strPath "/work/rel1.tar") [] (strPath "/t") (strPath "/t/rel1") [])
        [Step.mk "p1" "r1" [170] (strPath "/w1")
          (FS.mk [] (fun _ => []) (fun _ => ⟨0, 0, 0, 0, "", ""⟩)),
         Step.mk "p2" "r2" [170] (strPath "/w2")
          (FS.mk [] (fun _ => []) (fun _ => ⟨0, 0, 0, 0, "", ""⟩))]).1).manifest
      = Yaml.seq l ∧ l.length = 1 := by
  refine ⟨by decide, rfl, ?_⟩
  obtain ⟨k, art, hbund⟩ : ∃ k art,
      (runOk (Bundler.mk "rel1" (strPath "/work/rel1.tar") [] (strPath "/t") (strPath "/t/rel1") [])
        [Step.mk "p1" "r1" [170] (strPath "/w1")
          (FS.mk [] (fun _ => []) (fun _ => ⟨0, 0, 0, 0, "", ""⟩)),
         Step.mk "p2" "r2" [170] (strPath "/w2")
          (FS.mk [] (fun _ => []) (fun _ => ⟨0, 0, 0, 0, "", ""⟩))]).1.bundled
        = [(k, art)] := ⟨_, _, rfl⟩
  have hsing : ([(k, art)].mergeSort (fun x y => strLe x.1 y.1)) = [(k, art)] := by
    simp [List.mergeSort]
  refine ⟨(([(k, art)].mergeSort (fun x y => strLe x.1 y.1)).map (fun it =>
      Yaml.map [(Yaml.str it.1,
        Yaml.map [(Yaml.str "digestSHA256", Yaml.str it.2.2.1),
                  (Yaml.str "name", Yaml.str it.2.1)])])), ?_, ?_⟩
  · show Yaml.seq (((_ : Bundler).bundled.mergeSort (fun x y => strLe x.1 y.1)).map _) = _
    rw [hbund]
  · rw [hsing]
    rfl

/-- C6 (amended): for a run of N successful `bundle` calls with N DISTINCT
VARIANT IDENTIFIERS, `finalize` produces a manifest that is a sequence of
exactly N single-key mappings — key the lowercase-hex variant identifier,
value a mapping with exactly the fields `digestSHA256` (the recorded
digest) and `name` (the recipe name) — sorted by variant identifier. -/
theorem C6_manifest_amended (b : Bundler) (steps : List Step)
    (hempty : b.bundled = [])
    (hexc : ∀ s ∈ steps, b.excludes.any (fun e => fnmatch s.pkgName e) = false)
    (hnodup : (steps.map vidHex).Nodup) :
    (runOk b steps).2 = true ∧
    ∃ l, (Bundler.finalize (runOk b steps).1).manifest = Yaml.seq l ∧
      l.length = steps.length ∧
      (∀ it ∈ l, ∃ s ∈ steps, it = Yaml.map [(Yaml.str (vidHex s),
          Yaml.map [(Yaml.str "digestSHA256",
                     Yaml.str (sha256Hex (encodeArchive s.workspacePath s.workspaceFS))),
                    (Yaml.str "name", Yaml.str s.recipeName)])]) ∧
      (∀ s ∈ steps, Yaml.map [(Yaml.str (vidHex s),
          Yaml.map [(Yaml.str "digestSHA256",
                     Yaml.str (sha256Hex (encodeArchive s.workspacePath s.workspaceFS))),
                    (Yaml.str "name", Yaml.str s.recipeName)])] ∈ l) ∧
      (l.map entryKey).Pairwise (fun x y => strLe x y = true) := by
  have hfresh : ∀ s ∈ steps, ∀ kv ∈ b.bundled, kv.1 ≠ vidHex s := by
    rw [hempty]
    simp
  obtain ⟨hok, hbund, _, _⟩ := runOk_spec steps b hexc hfresh hnodup
  rw [hempty, List.nil_append] at hbund
  refine ⟨hok, ?_⟩
  have hman : (Bundler.finalize (runOk b steps).1).manifest
      = Yaml.seq ((((runOk b steps).1.bundled).mergeSort (fun x y => strLe x.1 y.1)).map
        (fun it => Yaml.map [(Yaml.str it.1,
          Yaml.map [(Yaml.str "digestSHA256", Yaml.str it.2.2.1),
                    (Yaml.str "name", Yaml.str it.2.1)])])) := rfl
  have hperm : ((steps.map (fun s => (vidHex s, stepArtifact b s))).mergeSort
      (fun x y => strLe x.1 y.1)).Perm (steps.map (fun s => (vidHex s, stepArtifact b s))) :=
    List.mergeSort_perm _ _
  refine ⟨_, by rw [hman, hbund], ?_, ?_, ?_, ?_⟩
  · rw [List.length_map, hperm.length_eq, List.length_map]
  · intro it hit
    rw [List.mem_map] at hit
    obtain ⟨x, hx, hxe⟩ := hit
    have hx2 : x ∈ steps.map (fun s => (vidHex s, stepArtifact b s)) := hperm.mem_iff.mp hx
    rw [List.mem_map] at hx2
    obtain ⟨s, hsmem, hsx⟩ := hx2
    exact ⟨s, hsmem, by rw [← hxe, ← hsx]; rfl⟩
  · intro s hsmem
    rw [List.mem_map]
    refine ⟨(vidHex s, stepArtifact b s), ?_, rfl⟩
    exact hperm.mem_iff.mpr (List.mem_map_of_mem _ hsmem)
  · have hsorted : ((steps.map (fun s => (vidHex s, stepArtifact b s))).mergeSort
        (fun x y => strLe x.1 y.1)).Pairwise (fun x y => strLe x.1 y.1 = true) :=
      List.sorted_mergeSort (fun x y z => strLe_trans x.1 y.1 z.1)
        (fun x y => strLe_total x.1 y.1) _
    rw [List.map_map]
    rw [List.pairwise_map]
    exact hsorted

/-- C6 witness: concrete two-step run with distinct variant identifiers. -/
theorem C6_manifest_amended_witness :
    (([Step.mk "pa" "ra" [170] (strPath "/wa")
        (FS.mk [] (fun _ => []) (fun _ => ⟨0, 0, 0, 0, "", ""⟩)),
       Step.mk "pb" "rb" [187] (strPath "/wb")
        (FS.mk [] (fun _ => []) (fun _ => ⟨0, 0, 0, 0, "", ""⟩))].map vidHex).Nodup) ∧
    (runOk (Bundler.mk "rel1" (strPath "/work/rel1.tar") [] (strPath "/t") (strPath "/t/rel1") [])
      [Step.mk "pa" "ra" [170] (strPath "/wa")
        (FS.mk [] (fun _ => []) (fun _ => ⟨0, 0, 0, 0, "", ""⟩)),
       Step.mk "pb" "rb" [187] (strPath "/wb")
        (FS.mk [] (fun _ => []) (fun _ => ⟨0, 0, 0, 0, "", ""⟩))]).2 = true :=
  ⟨by decide,
   (C6_manifest_amended
      (Bundler.mk "rel1" (strPath "/work/rel1.tar") [] (strPath "/t") (strPath "/t/rel1") [])
      [Step.mk "pa" "ra" [170] (strPath "/wa")
        (FS.mk [] (fun _ => []) (fun _ => ⟨0, 0, 0, 0, "", ""⟩)),
       Step.mk "pb" "rb" [187] (strPath "/wb")
        (FS.mk [] (fun _ => []) (fun _ => ⟨0, 0, 0, 0, "", ""⟩))]
      rfl (by simp) (by decide)).1⟩

theorem findInItems_none (bf : Path) (hex : String)
    (items : List (List (String × BData)))
    (h : ∀ bm ∈ items, lookupKey hex bm = none) : findInItems bf hex items = none := by
  induction items with
  | nil => rfl
  | cons bm rest ih =>
    unfold findInItems
    rw [h bm (List.mem_cons_self bm rest)]
    exact ih (fun bm2 h2 => h bm2 (List.mem_cons_of_mem bm h2))

theorem findInItems_first (bf : Path) (hex : String)
    (ipre : List (List (String × BData))) (bm : List (String × BData))
    (irest : List (List (String × BData))) (data : BData)
    (hpre : ∀ bm2 ∈ ipre, lookupKey hex bm2 = none)
    (hhit : lookupKey hex bm = some data) :
    findInItems bf hex (ipre ++ bm :: irest)
      = some (bf,
          pJoin (pJoin (pJoin (dirname bf) (strPath data.name)) (strPath hex))
            (strPath "bundle.tgz"),
          data.digestSHA256) := by
  induction ipre with
  | nil =>
    unfold findInItems
    rw [List.nil_append]
    show (match lookupKey hex bm with
      | some d => some (bf, _, d.digestSHA256) | none => findInItems bf hex irest) = _
    rw [hhit]
  | cons bm2 rest2 ih =>
    rw [List.cons_append]
    unfold findInItems
    rw [hpre bm2 (List.mem_cons_self bm2 rest2)]
    exact ih (fun bm3 h3 => hpre bm3 (List.mem_cons_of_mem bm2 h3))

/-- C8: the Resolver scans bundles in the order supplied and each bundle's
manifest entries in sequence order; if no entry's mapping contains the hex
variant identifier it returns the explicit not-found result `none`, and
otherwise it returns, for the FIRST matching entry, the triple (aggregate
bundle path, `dirname(bundle)/<name>/<vid-hex>/bundle.tgz`, recorded
digest). -/
theorem C8_resolver_first_match (vid : List Nat) :
    (∀ bundles : List (Path × List (List (String × BData))),
      (∀ be ∈ bundles, ∀ bm ∈ be.2, lookupKey (bytesHex vid) bm = none) →
      getFromBundle bundles vid = none) ∧
    (∀ (pre : List (Path × List (List (String × BData)))) (bf : Path)
        (items : List (List (String × BData)))
        (rest : List (Path × List (List (String × BData))))
        (ipre : List (List (String × BData))) (bm : List (String × BData))
        (irest : List (List (String × BData))) (data : BData),
      (∀ be ∈ pre, ∀ bm2 ∈ be.2, lookupKey (bytesHex vid) bm2 = none) →
      items = ipre ++ bm :: irest →
      (∀ bm2 ∈ ipre, lookupKey (bytesHex vid) bm2 = none) →
      lookupKey (bytesHex vid) bm = some data →
      getFromBundle (pre ++ (bf, items) :: rest) vid
        = some (bf,
            pJoin (pJoin (pJoin (dirname bf) (strPath data.name))
              (strPath (bytesHex vid))) (strPath "bundle.tgz"),
            data.digestSHA256)) := by
  constructor
  · intro bundles h
    induction bundles with
    | nil => rfl
    | cons be rest ih =>
      obtain ⟨bf, items⟩ := be
      unfold getFromBundle
      rw [findInItems_none bf (bytesHex vid) items
            (fun bm h2 => h (bf, items) (List.mem_cons_self _ rest) bm h2)]
      exact ih (fun be2 h2 => h be2 (List.mem_cons_of_mem _ h2))
  · intro pre bf items rest ipre bm irest data hpre hitems hipre hhit
    induction pre with
    | nil =>
      rw [List.nil_append]
      unfold getFromBundle
      rw [hitems, findInItems_first bf (bytesHex vid) ipre bm irest data hipre hhit]
    | cons be rest2 ih =>
      obtain ⟨bf2, items2⟩ := be
      rw [List.cons_append]
      unfold getFromBundle
      rw [findInItems_none bf2 (bytesHex vid) items2
            (fun bm2 h2 => hpre (bf2, items2) (List.mem_cons_self _ rest2) bm2 h2)]
      exact ih (fun be2 h2 => hpre be2 (List.mem_cons_of_mem _ h2))

/-- C8 witness: a one-bundle set — a present identifier resolves to its
recorded digest and reconstructed path; an absent identifier yields the
not-found result. -/
theorem C8_resolver_first_match_witness :
    lookupKey (bytesHex [170]) [("aa", BData.mk "r1" "d1")] = some (BData.mk "r1" "d1") ∧
    getFromBundle [(strPath "/b/one.tar", [[("aa", BData.mk "r1" "d1")]])] [170]
      = some (strPath "/b/one.tar",
          pJoin (pJoin (pJoin (dirname (strPath "/b/one.tar")) (strPath "r1"))
            (strPath (bytesHex [170]))) (strPath "bundle.tgz"),
          "d1") ∧
    getFromBundle [(strPath "/b/one.tar", [[("aa", BData.mk "r1" "d1")]])] [187] = none := by
  refine ⟨by decide, ?_, ?_⟩
  · have h := (C8_resolver_first_match [170]).2 [] (strPath "/b/one.tar")
      [[("aa", BData.mk "r1" "d1")]] [] [] [("aa", BData.mk "r1" "d1")] []
      (BData.mk "r1" "d1") (by simp) rfl (by simp) (by decide)
    simpa using h
  · have h := (C8_resolver_first_match [187]).1
      [(strPath "/b/one.tar", [[("aa", BData.mk "r1" "d1")]])] (by decide)
    exact h

theorem isStrYaml_iff (v : Yaml) : isStrYaml v = true ↔ ∃ s, v = Yaml.str s := by
  cases v <;> simp [isStrYaml]

theorem validEntryVal_iff (v : Yaml) : validEntryVal v = true ↔
    ∃ kvs2, v = Yaml.map kvs2 ∧
      (∀ kv2 ∈ kvs2, ∃ k2 v2, kv2 = (Yaml.str k2, Yaml.str v2) ∧
        (k2 = "name" ∨ k2 = "digestSHA256")) ∧
      (∃ kv2 ∈ kvs2, kv2.1 = Yaml.str "name") ∧
      (∃ kv2 ∈ kvs2, kv2.1 = Yaml.str "digestSHA256") := by
  cases v with
  | str s => simp [validEntryVal]
  | num n => simp [validEntryVal]
  | seq xs => simp [validEntryVal]
  | map kvs =>
    unfold validEntryVal
    simp only [Bool.and_eq_true, List.all_eq_true, List.any_eq_true]
    constructor
    · rintro ⟨⟨hall, kvn, hkn, hkn1⟩, kvd, hkd, hkd1⟩
      refine ⟨kvs, rfl, ?_, ⟨kvn, hkn, ?_⟩, ⟨kvd, hkd, ?_⟩⟩
      · intro kv2 h2
        have hthis := hall kv2 h2
        obtain ⟨k1, v1⟩ := kv2
        cases k1 with
        | str k =>
          simp only [Bool.and_eq_true, Bool.or_eq_true, decide_eq_true_eq] at hthis
          obtain ⟨hk, hv⟩ := hthis
          obtain ⟨s2, hs2⟩ := (isStrYaml_iff v1).mp hv
          exact ⟨k, s2, by rw [hs2], hk⟩
        | num n => simp at hthis
        | seq xs => simp at hthis
        | map m => simp at hthis
      · obtain ⟨k1, v1⟩ := kvn
        cases k1 with
        | str k =>
          simp only [decide_eq_true_eq] at hkn1
          rw [hkn1]
        | num n => simp at hkn1
        | seq xs => simp at hkn1
        | map m => simp at hkn1
      · obtain ⟨k1, v1⟩ := kvd
        cases k1 with
        | str k =>
          simp only [decide_eq_true_eq] at hkd1
          rw [hkd1]
        | num n => simp at hkd1
        | seq xs => simp at hkd1
        | map m => simp at hkd1
    · rintro ⟨kvs2, heq, hall, ⟨kvn, hkn, hkn1⟩, kvd, hkd, hkd1⟩
      injection heq with h
      subst h
      refine ⟨⟨?_, ⟨kvn, hkn, ?_⟩⟩, ⟨kvd, hkd, ?_⟩⟩
      · intro kv h2
        obtain ⟨k2, v2, hkv, hk⟩ := hall kv h2
        rw [hkv]
        simp [isStrYaml]
        exact hk
      · rw [hkn1]
        simp
      · rw [hkd1]
        simp

theorem validItem_iff (it : Yaml) : validItem it = true ↔
    ∃ kvs, it = Yaml.map kvs ∧ kvs ≠ [] ∧
      ∀ kv ∈ kvs, (∃ k, kv.1 = Yaml.str k) ∧ validEntryVal kv.2 = true := by
  cases it with
  | str s => simp [validItem]
  | num n => simp [validItem]
  | seq xs => simp [validItem]
  | map kvs =>
    unfold validItem
    rw [Bool.and_eq_true, List.all_eq_true, List.any_eq_true]
    constructor
    · rintro ⟨hall, kv0, hkv0, _⟩
      refine ⟨kvs, rfl, ?_, ?_⟩
      · intro hnil
        rw [hnil] at hkv0
        exact List.not_mem_nil kv0 hkv0
      · intro kv h2
        have h3 := hall kv h2
        rw [Bool.and_eq_true] at h3
        exact ⟨(isStrYaml_iff kv.1).mp h3.1, h3.2⟩
    · rintro ⟨kvs2, heq, hne, hprop⟩
      injection heq with h2
      subst h2
      constructor
      · intro kv h2
        rw [Bool.and_eq_true]
        obtain ⟨⟨k, hk⟩, hv⟩ := hprop kv h2
        exact ⟨(isStrYaml_iff kv.1).mpr ⟨k, hk⟩, hv⟩
      · cases kvs with
        | nil => exact absurd rfl hne
        | cons kv0 rest =>
          refine ⟨kv0, List.mem_cons_self _ _, ?_⟩
          obtain ⟨⟨k, hk⟩, _⟩ := hprop kv0 (List.mem_cons_self _ _)
          exact (isStrYaml_iff kv0.1).mpr ⟨k, hk⟩

/-- C9 (counterexample): the schema accepts sequences whose mappings are
NOT single-key: a two-key mapping, each key a string and each value fitting
the inner `{name, digestSHA256}` schema, validates against
`BUNDLE_SCHEMA`, while the spec's single-key predicate rejects it. -/
theorem C9_schema_counterexample :
    bundleSchemaValid (Yaml.seq [Yaml.map
      [(Yaml.str "aa", Yaml.map [(Yaml.str "name", Yaml.str "r"),
                                 (Yaml.str "digestSHA256", Yaml.str "d")]),
       (Yaml.str "bb", Yaml.map [(Yaml.str "name", Yaml.str "r2"),
                                 (Yaml.str "digestSHA256", Yaml.str "d2")])]]) = true ∧
    specSingleKeyManifestValid (Yaml.seq [Yaml.map
      [(Yaml.str "aa", Yaml.map [(Yaml.str "name", Yaml.str "r"),
                                 (Yaml.str "digestSHA256", Yaml.str "d")]),
       (Yaml.str "bb", Yaml.map [(Yaml.str "name", Yaml.str "r2"),
                                 (Yaml.str "digestSHA256", Yaml.str "d2")])]]) = false :=
  ⟨rfl, rfl⟩

/-- C9 (amended): `BUNDLE_SCHEMA` validation accepts a parsed structure
precisely when it is a sequence of mappings each having AT LEAST ONE key —
the class key `str` is a required pattern, so an empty mapping fails with a
missing-key error — in which every key is a string and every value is a
mapping whose keys are exactly the fields `name` and `digestSHA256`, both
present, with string values; any deviation in those value mappings is
rejected outright, but single-keyness of the outer mappings is not
enforced: mappings with several string keys are accepted. -/
theorem C9_schema_amended (y : Yaml) :
    bundleSchemaValid y = true ↔
      ∃ xs, y = Yaml.seq xs ∧
        ∀ it ∈ xs, ∃ kvs, it = Yaml.map kvs ∧ kvs ≠ [] ∧
          ∀ kv ∈ kvs, (∃ k, kv.1 = Yaml.str k) ∧
            (∃ kvs2, kv.2 = Yaml.map kvs2 ∧
              (∀ kv2 ∈ kvs2, ∃ k2 v2, kv2 = (Yaml.str k2, Yaml.str v2) ∧
                (k2 = "name" ∨ k2 = "digestSHA256")) ∧
              (∃ kv2 ∈ kvs2, kv2.1 = Yaml.str "name") ∧
              (∃ kv2 ∈ kvs2, kv2.1 = Yaml.str "digestSHA256")) := by
  cases y with
  | str s => simp [bundleSchemaValid]
  | num n => simp [bundleSchemaValid]
  | map kvs => simp [bundleSchemaValid]
  | seq xs =>
    unfold bundleSchemaValid
    rw [List.all_eq_true]
    constructor
    · intro h
      refine ⟨xs, rfl, fun it hit => ?_⟩
      obtain ⟨kvs, hkv, hne, hprop⟩ := (validItem_iff it).mp (h it hit)
      exact ⟨kvs, hkv, hne, fun kv h2 =>
        ⟨(hprop kv h2).1, (validEntryVal_iff kv.2).mp (hprop kv h2).2⟩⟩
    · rintro ⟨xs2, heq, h⟩
      injection heq with h2
      subst h2
      intro it hit
      obtain ⟨kvs, hkv, hne, hprop⟩ := h it hit
      exact (validItem_iff it).mpr ⟨kvs, hkv, hne, fun kv hk =>
        ⟨(hprop kv hk).1, (validEntryVal_iff kv.2).mpr (hprop kv hk).2⟩⟩

/-- C9 witness: concrete instantiation of the amended characterization, in
both directions — a proper single-entry manifest validates, a value missing
`digestSHA256` is rejected, and an empty outer mapping is rejected. -/
theorem C9_schema_amended_witness :
    bundleSchemaValid (Yaml.seq [Yaml.map
      [(Yaml.str "aa", Yaml.map [(Yaml.str "name", Yaml.str "r"),
                                 (Yaml.str "digestSHA256", Yaml.str "d")])]]) = true ∧
    ¬ bundleSchemaValid (Yaml.seq [Yaml.map
      [(Yaml.str "aa", Yaml.map [(Yaml.str "name", Yaml.str "r")])]]) = true ∧
    ¬ bundleSchemaValid (Yaml.seq [Yaml.map []]) = true :=
  ⟨(C9_schema_amended _).mpr
    ⟨[Yaml.map [(Yaml.str "aa", Yaml.map [(Yaml.str "name", Yaml.str "r"),
        (Yaml.str "digestSHA256", Yaml.str "d")])]], rfl, by
      intro it hit
      rw [List.mem_singleton] at hit
      subst hit
      refine ⟨_, rfl, by simp, ?_⟩
      intro kv hkv
      rw [List.mem_singleton] at hkv
      subst hkv
      exact ⟨⟨"aa", rfl⟩, ⟨_, rfl, by
        intro kv2 h2
        rw [List.mem_cons, List.mem_singleton] at h2
        rcases h2 with h2 | h2
        · exact ⟨"name", "r", by rw [h2], Or.inl rfl⟩
        · exact ⟨"digestSHA256", "d", by rw [h2], Or.inr rfl⟩,
        ⟨_, List.mem_cons_self _ _, rfl⟩,
        ⟨_, List.mem_cons_of_mem _ (List.mem_singleton_self _), rfl⟩⟩⟩⟩,
   fun hc => by
    obtain ⟨xs, hxs, hprop⟩ := (C9_schema_amended _).mp hc
    injection hxs with hxs2
    subst hxs2
    obtain ⟨kvs, hkvs, _, hkv⟩ := hprop _ (List.mem_singleton_self _)
    injection hkvs with hkvs2
    subst hkvs2
    obtain ⟨_, kvs2, hkvs2, hinner, _, kvd, hkd, hkd1⟩ :=
      hkv _ (List.mem_singleton_self _)
    injection hkvs2 with hkvs3
    subst hkvs3
    rw [List.mem_singleton] at hkd
    subst hkd
    simp at hkd1,
   fun hc => by
    obtain ⟨xs, hxs, hprop⟩ := (C9_schema_amended _).mp hc
    injection hxs with hxs2
    subst hxs2
    obtain ⟨kvs, hkvs, hne, _⟩ := hprop _ (List.mem_singleton_self _)
    injection hkvs with hkvs2
    exact hne hkvs2.symm⟩

end Bob
